import Mathlib

/-!
Verification of the ICES data-schema scraper against its specification.

The Python source (`ices_data_schema_scraper/scraper.py` and `cli.py`) is
shallowly embedded below: each pure fragment of the scraper becomes an
executable Lean function over `List Char` / `String`, browser locators are
modelled as records of the values their operations produce (`none` marking
an operation that raises), and the persisted CSV file is modelled as a list
of records.
-/

namespace Ices

/-- The ASCII whitespace characters stripped by Python's `str.strip()` and
matched by the regex class in the scraper's substitutions. -/
def pySpace (c : Char) : Bool :=
  c == ' ' || c == '\t' || c == '\n' || c == '\r' || c == '\x0b' || c == '\x0c'

/-- Python `str.strip()`: drop leading and trailing whitespace. -/
def stripL (l : List Char) : List Char :=
  List.rdropWhile pySpace (List.dropWhile pySpace l)

/-- `str.strip()` lifted to `String`. -/
def stripStr (s : String) : String := ⟨stripL s.data⟩

/-- Length of the leading run of characters satisfying `p` (used to consume
the optional whitespace inside a break tag, regex `<br\s*/?>`). -/
def countWhile (p : Char → Bool) : List Char → Nat
  | [] => 0
  | c :: rest => if p c then countWhile p rest + 1 else 0

/-- The placeholder the scraper substitutes for break tags
(`"__BR_TAG__"`, scraper.py line 74). -/
def brPlaceholder : List Char := "__BR_TAG__".data

/-- Given the characters following a `<`, decide whether they complete a
break tag `br\s*/?>` (case-insensitive), returning how many characters the
tag consumes after the `<`. -/
def brSpan (rest : List Char) : Option Nat :=
  match rest with
  | b :: r :: rest2 =>
    if (b == 'b' || b == 'B') && (r == 'r' || r == 'R') then
      let s := countWhile pySpace rest2
      match rest2.drop s with
      | '>' :: _ => some (s + 3)
      | '/' :: '>' :: _ => some (s + 4)
      | _ => none
    else none
  | _ => none

/-- Scanner for `re.sub(r"<br\s*/?>", "__BR_TAG__", html, IGNORECASE)`
(scraper.py lines 73-75).  The `Nat` argument counts characters still to be
skipped because they belong to an already-replaced match. -/
def replaceBrTagsAux : Nat → List Char → List Char
  | n + 1, _ :: rest => replaceBrTagsAux n rest
  | _, [] => []
  | 0, '<' :: rest =>
    match brSpan rest with
    | some k => brPlaceholder ++ replaceBrTagsAux k rest
    | none => '<' :: replaceBrTagsAux 0 rest
  | 0, c :: rest => c :: replaceBrTagsAux 0 rest

/-- `re.sub(r"<br\s*/?>", "__BR_TAG__", html, flags=IGNORECASE)`. -/
def replaceBrTags (l : List Char) : List Char := replaceBrTagsAux 0 l

/-- Index of the first `'>'` in the list, if any. -/
def gtIdx : List Char → Option Nat
  | [] => none
  | '>' :: _ => some 0
  | _ :: rest => (gtIdx rest).map (· + 1)

/-- Given the characters following a `<`, decide whether they complete a tag
`[^>]+>`, returning how many characters the tag consumes after the `<`. -/
def tagSpan (rest : List Char) : Option Nat :=
  match gtIdx rest with
  | some p => if 1 ≤ p then some (p + 1) else none
  | none => none

/-- Scanner for `re.sub(r"<[^>]+>", "", text)` (scraper.py line 78). -/
def stripTagsAux : Nat → List Char → List Char
  | n + 1, _ :: rest => stripTagsAux n rest
  | _, [] => []
  | 0, '<' :: rest =>
    match tagSpan rest with
    | some k => stripTagsAux k rest
    | none => '<' :: stripTagsAux 0 rest
  | 0, c :: rest => c :: stripTagsAux 0 rest

/-- `re.sub(r"<[^>]+>", "", text)`: remove every remaining tag. -/
def stripTags (l : List Char) : List Char := stripTagsAux 0 l

/-- Scanner for `re.sub(r"\n+", " ", text)` (scraper.py line 81): each
maximal run of newline characters becomes a single space.  The flag records
whether the scanner is inside a newline run. -/
def collapseNLAux : Bool → List Char → List Char
  | _, [] => []
  | inRun, c :: rest =>
    if c == '\n' then
      if inRun then collapseNLAux true rest else ' ' :: collapseNLAux true rest
    else c :: collapseNLAux false rest

/-- `re.sub(r"\n+", " ", text)`. -/
def collapseNL (l : List Char) : List Char := collapseNLAux false l

/-- Does `pat` occur as an initial segment of the second list? -/
def matchesAt : List Char → List Char → Bool
  | [], _ => true
  | _ :: _, [] => false
  | p :: ps, c :: cs => p == c && matchesAt ps cs

/-- Scanner for Python `str.replace(pat, rep)` with a non-empty pattern:
leftmost, non-overlapping occurrences.  The `Nat` argument counts characters
still to be skipped because they belong to an already-replaced match. -/
def replaceAllAux (pat rep : List Char) : Nat → List Char → List Char
  | n + 1, _ :: rest => replaceAllAux pat rep n rest
  | _, [] => []
  | 0, c :: rest =>
    if matchesAt pat (c :: rest) then
      rep ++ replaceAllAux pat rep (pat.length - 1) rest
    else c :: replaceAllAux pat rep 0 rest

/-- Python `text.replace(pat, rep)` for a non-empty `pat`. -/
def replaceAll (pat rep l : List Char) : List Char := replaceAllAux pat rep 0 l

/-- Python `text.split("\n")`. -/
def splitNL : List Char → List (List Char)
  | [] => [[]]
  | c :: rest =>
    if c == '\n' then [] :: splitNL rest
    else
      match splitNL rest with
      | [] => [[c]]
      | l :: ls => (c :: l) :: ls

/-- Python `"\n".join(lines)`. -/
def intercalateNL : List (List Char) → List Char
  | [] => []
  | [l] => l
  | l :: ls => l ++ '\n' :: intercalateNL ls

/-- The per-line cleanup of `_extract_text_with_br_tags` (scraper.py lines
87-88): split on newlines, strip each line, drop the empty ones. -/
def processedLines (t : List Char) : List (List Char) :=
  ((splitNL t).map stripL).filter (fun l => !l.isEmpty)

/-- The successful branch of `_extract_text_with_br_tags` (scraper.py lines
69-91) applied to the fragment returned by `inner_html()`. -/
def processHtml (html : List Char) : List Char :=
  let t1 := replaceBrTags html
  let t2 := stripTags t1
  let t3 := collapseNL t2
  let t4 := replaceAll brPlaceholder ['\n'] t3
  stripL (intercalateNL (processedLines t4))

/-- A Playwright locator, modelled by the values its two text-producing
operations yield: `none` marks an operation that raises, and
`textContent = some none` models a `null` text content (which the code
defaults to `""` via `or ""`). -/
structure Locator where
  innerHtml : Option String
  textContent : Option (Option String)
deriving DecidableEq, Repr

/-- `_extract_text_with_br_tags` (scraper.py lines 55-100): structured
extraction from `inner_html`, falling back to `text_content` with newline
runs collapsed to spaces, and finally to the empty string. -/
def extractTextWithBrTags (loc : Locator) : String :=
  match loc.innerHtml with
  | some html => ⟨processHtml html.data⟩
  | none =>
    match loc.textContent with
    | some t => ⟨stripL (collapseNL (t.getD "").data)⟩
    | none => ""

/-- `locator.text_content()` as the code uses it: `none` when the call
raises, otherwise the text with a `null` result defaulted to `""`. -/
def pyTextContent (loc : Locator) : Option String :=
  loc.textContent.map (fun t => t.getD "")

/-- The sparse detail mapping built by `_extract_detailed_view`
(`data = {}`, scraper.py line 436): a field is `none` until a row sets it. -/
structure DetailData where
  label : Option String := none
  type_length : Option String := none
  available_in : Option String := none
  format : Option String := none
  value : Option String := none
  links : Option String := none
deriving DecidableEq, Repr

/-- The empty detail mapping. -/
def emptyDetail : DetailData := {}

/-- Python's `pat in hay` for strings: contiguous substring containment. -/
def hasSub (pat : List Char) : List Char → Bool
  | [] => matchesAt pat []
  | c :: rest => matchesAt pat (c :: rest) || hasSub pat rest

/-- Substring containment lifted to `String`. -/
def inStr (pat hay : String) : Bool := hasSub pat.data hay.data

/-- The label-to-field chain of `_extract_detailed_view` (scraper.py lines
467-484): the label text is tested by substring containment against the
keywords in order, and the first matching keyword's field is assigned. -/
def updateRow (d : DetailData) (labelText valueText : String) : DetailData :=
  if inStr "Label" labelText then { d with label := some valueText }
  else if inStr "Type Length" labelText then { d with type_length := some valueText }
  else if inStr "Available In" labelText then { d with available_in := some valueText }
  else if inStr "Format" labelText then { d with format := some valueText }
  else if inStr "Value" labelText then { d with value := some valueText }
  else if inStr "Links" labelText then { d with links := some valueText }
  else d

/-- One iteration of the row loop of `_extract_detailed_view` (scraper.py
lines 446-488).  A detail row is its list of `td` cells; a row with fewer
than two cells is ignored, and a row whose label cell's `text_content()`
raises is skipped by the inner exception handler. -/
def edvStep (d : DetailData) (cells : List Locator) : DetailData :=
  match cells with
  | c0 :: c1 :: _ =>
    match pyTextContent c0 with
    | none => d
    | some s => updateRow d (stripStr s) (extractTextWithBrTags c1)
  | _ => d

/-- `_extract_detailed_view` (scraper.py lines 434-492) over the detail
view's table rows. -/
def extractDetailedView (rows : List (List Locator)) : DetailData :=
  rows.foldl edvStep {}

/-- The six detail fields, in the keyword order of the code. -/
inductive DField
  | label
  | type_length
  | available_in
  | format
  | value
  | links
deriving DecidableEq, Repr

/-- Field projection of a `DetailData`. -/
def getDF (d : DetailData) : DField → Option String
  | .label => d.label
  | .type_length => d.type_length
  | .available_in => d.available_in
  | .format => d.format
  | .value => d.value
  | .links => d.links

/-- The keyword matched against the label for each field. -/
def keywordOf : DField → String
  | .label => "Label"
  | .type_length => "Type Length"
  | .available_in => "Available In"
  | .format => "Format"
  | .value => "Value"
  | .links => "Links"

/-- The ordered keyword table of `_extract_detailed_view`. -/
def keywordOrder : List DField :=
  [.label, .type_length, .available_in, .format, .value, .links]

/-- The first keyword (in the code's fixed order) contained in the label
text, if any: the field the `elif` chain assigns for this label. -/
def firstKeyword (labelText : String) : Option DField :=
  keywordOrder.find? (fun f => inStr (keywordOf f) labelText)

/-- The field/value contribution of one detail row, if it has at least two
cells, a readable label cell, and a label containing some keyword. -/
def rowContribution (f : DField) (cells : List Locator) : Option String :=
  match cells with
  | c0 :: c1 :: _ =>
    match pyTextContent c0 with
    | none => none
    | some s =>
      if firstKeyword (stripStr s) = some f then some (extractTextWithBrTags c1)
      else none
  | _ => none

/-- A variable's summary attributes from the listing view
(`{"name": ..., "description": ..., "type": ...}`, scraper.py line 353). -/
structure VariableInfo where
  name : String
  description : String
  type : String
deriving DecidableEq, Repr

/-- One output record: the fixed 9-column shape (scraper.py lines 194-204,
274-284). -/
structure OutputRow where
  variable_name : String
  main_description : String
  main_type : String
  label : String
  type_length : String
  available_in : String
  format : String
  value : String
  links : String
deriving DecidableEq, Repr

/-- `row_data` for one variable (scraper.py lines 274-284): summary fields
plus detail fields defaulted to `""` via `dict.get(key, "")`. -/
def rowData (v : VariableInfo) (d : DetailData) : OutputRow :=
  { variable_name := v.name
    main_description := v.description
    main_type := v.type
    label := d.label.getD ""
    type_length := d.type_length.getD ""
    available_in := d.available_in.getD ""
    format := d.format.getD ""
    value := d.value.getD ""
    links := d.links.getD "" }

/-- The site's detail view for a given variable name: the rows of the
detail table as finally extracted (after the `more`-button pass). -/
def Site : Type := String → List (List Locator)

/-- The output row written for one pending variable (scraper.py lines
269-285): detail extraction merged with the summary. -/
def rowFor (site : Site) (v : VariableInfo) : OutputRow :=
  rowData v (extractDetailedView (site v.name))

/-- A line of the persisted CSV file: the header or a data record. -/
inductive Rec
  | header
  | row (r : OutputRow)
deriving DecidableEq, Repr

/-- One iteration of the writer loop (scraper.py lines 255-286): append one
record and flush before the next variable. -/
def runStep (site : Site) (file : List Rec) (v : VariableInfo) : List Rec :=
  file ++ [Rec.row (rowFor site v)]

/-- The writer loop over the pending worklist. -/
def runLoop (site : Site) (file : List Rec) (pending : List VariableInfo) : List Rec :=
  pending.foldl (runStep site) file

/-- The file contents produced by one run's STEP 5-7 (scraper.py lines
190-286): create the file with the header when it does not exist, never
write the header when it does, then append one row per pending variable. -/
def scrapeRun (site : Site) (existing : Option (List Rec))
    (pending : List VariableInfo) : List Rec :=
  match existing with
  | none => runLoop site [Rec.header] pending
  | some c => runLoop site c pending

/-- A record of the existing CSV as `csv.DictReader` yields it: the
`variable_name` field is absent (`none`) when the file has no such column
or the value is `null`-like. -/
structure CsvRecord where
  variable_name : Option String
deriving DecidableEq, Repr

/-- The existing CSV file as the reader sees it: `openFails` models an
`open` that raises; a `none` entry models a row whose parse raises,
aborting the iteration there. -/
structure CsvFile where
  openFails : Bool
  rows : List (Option CsvRecord)
deriving DecidableEq, Repr

/-- The body of the reader loop (scraper.py lines 36-37): add the stripped
`variable_name` when the field is present and non-empty. -/
def addRecord (s : Finset String) (r : CsvRecord) : Finset String :=
  match r.variable_name with
  | some v => if v ≠ "" then insert (stripStr v) s else s
  | none => s

/-- The names accumulated by the reader loop: rows after the first failing
row are never reached, and the exception handler returns what was
accumulated up to the failure (scraper.py lines 30-50). -/
def collectRows : List (Option CsvRecord) → Finset String
  | [] => ∅
  | none :: _ => ∅
  | some r :: rest => addRecord (collectRows rest) r

/-- `_read_existing_variables` (scraper.py lines 16-52): empty when the
file is absent or `open` raises, otherwise the loop's accumulation. -/
def readExistingVariables (file : Option CsvFile) : Finset String :=
  match file with
  | none => ∅
  | some f => if f.openFails then ∅ else collectRows f.rows

/-- The worklist filter (scraper.py lines 223-225): listing order minus the
ledger. -/
def pendingWorklist (vars : List VariableInfo) (ledger : Finset String) :
    List VariableInfo :=
  vars.filter (fun v => !(v.name ∈ ledger))

/-- How one written line reads back: `DictReader` consumes the header line
as the field names, and a data row parses to a record whose
`variable_name` is the one that was written. -/
def recToCsvRow : Rec → Option (Option CsvRecord)
  | Rec.header => none
  | Rec.row o => some (some ⟨some o.variable_name⟩)

/-- Reading back a file this scraper wrote. -/
def recsToCsv (l : List Rec) : CsvFile :=
  { openFails := false
    rows := l.filterMap recToCsvRow }

/-- One whole run (scraper.py lines 190-294): read the ledger from the
existing file when there is one, filter the listing, and append a row per
remaining variable. -/
def fullRun (site : Site) (vars : List VariableInfo)
    (existing : Option (List Rec)) : List Rec :=
  let ledger :=
    match existing with
    | none => (∅ : Finset String)
    | some c => readExistingVariables (some (recsToCsv c))
  scrapeRun site existing (pendingWorklist vars ledger)

/-- A `td` cell of the listing table: its link elements and the locator for
its own text. -/
structure TCell where
  links : List Locator
  content : Locator
deriving DecidableEq, Repr

/-- A row of the listing table: `fails` models a row whose locator
operations raise (caught at scraper.py lines 361-364), `tds` its `td`
cells, `thCount` its header-style `th` cells. -/
structure LRow where
  fails : Bool
  tds : List TCell
  thCount : Nat
deriving DecidableEq, Repr

/-- Total number of links inside the row's `td` cells
(`row.locator("td a").count()`, scraper.py line 329). -/
def tdLinkCount (r : LRow) : Nat :=
  (r.tds.map (fun c => c.links.length)).sum

/-- The variable-name link: the first link of the first `td`
(`row.locator("td").first.locator("a").first`, scraper.py line 334), or
`none` when that selection is empty.  Building the locator never raises;
only the text operations applied to it later can time out. -/
def rowNameLink (r : LRow) : Option Locator :=
  match r.tds with
  | [] => none
  | td0 :: _ => td0.links.head?

/-- The extracted variable name (scraper.py line 335):
`_extract_text_with_br_tags` on the name link.  When the selection is
empty, the `inner_html()`/`text_content()` timeouts are swallowed inside
`_extract_text_with_br_tags` (scraper.py lines 92-100) and it returns `""`,
the same value the helper returns for a locator both of whose operations
raise — so the row is still collected, with an empty name. -/
def rowName (r : LRow) : String :=
  match rowNameLink r with
  | none => extractTextWithBrTags ⟨none, none⟩
  | some l0 => extractTextWithBrTags l0

/-- The description: the second cell's text when `cell_count >= 2`
(scraper.py lines 344-348), otherwise `""`. -/
def rowDescription (r : LRow) : String :=
  match r.tds with
  | _ :: c1 :: _ => extractTextWithBrTags c1.content
  | _ => ""

/-- The type: the third cell's text when `cell_count >= 3` (scraper.py
lines 349-351), otherwise `""`. -/
def rowType (r : LRow) : String :=
  match r.tds with
  | _ :: _ :: c2 :: _ => extractTextWithBrTags c2.content
  | _ => ""

/-- One iteration of `_collect_all_variables`'s row loop (scraper.py lines
318-364): `none` when the row is skipped (header row, link-less row, or a
row-level operation that raises, caught at lines 361-364), `some` the
collected summary otherwise. -/
def collectStep (r : LRow) : Option VariableInfo :=
  if r.fails then none
  else if 0 < tdLinkCount r && r.thCount == 0 then
    some
      { name := rowName r
        description := rowDescription r
        type := rowType r }
  else none

/-- `_collect_all_variables` (scraper.py lines 300-370). -/
def collectAllVariables (rows : List LRow) : List VariableInfo :=
  rows.filterMap collectStep

/-- The sanitized dataset name of the default output filename
(cli.py line 69): spaces then colons replaced by hyphens. -/
def safeDatasetName (dataset : String) : String :=
  ⟨replaceAll [':'] ['-'] (replaceAll [' '] ['-'] dataset.data)⟩

/-- The default output CSV name (cli.py lines 67-70). -/
def defaultOutputCsv (library dataset dateStr : String) : String :=
  library ++ "__" ++ safeDatasetName dataset ++ "__" ++ dateStr ++ ".csv"

/-- Left-biased choice on optional values, as a Python `dict` lookup chain
behaves: the first `some` wins. -/
def orO (a b : Option String) : Option String :=
  match a with
  | some v => some v
  | none => b

/-- The dataset-name sanitizer described pointwise: every space and every
colon becomes a hyphen (the specification-side description of
`replace(" ", "-").replace(":", "-")`). -/
def hyphenate (c : Char) : Char :=
  if c = ' ' ∨ c = ':' then '-' else c

end Ices

namespace Ices

theorem dropWhile_head?_not (p : Char → Bool) (l : List Char) :
    ∀ a, (List.dropWhile p l).head? = some a → p a = false := by
  induction l with
  | nil => simp
  | cons c rest ih =>
    intro a h
    rw [List.dropWhile_cons] at h
    split at h
    · exact ih a h
    · next hc =>
      simp only [List.head?_cons, Option.some.injEq] at h
      subst h
      simpa using hc

theorem dropWhile_eq_self_of_head? (p : Char → Bool) (l : List Char)
    (h : ∀ a, l.head? = some a → p a = false) : List.dropWhile p l = l := by
  cases l with
  | nil => simp
  | cons c rest =>
    rw [List.dropWhile_cons]
    have := h c rfl
    simp [this]

theorem stripL_stripL (l : List Char) : stripL (stripL l) = stripL l := by
  unfold stripL
  have A : List.dropWhile pySpace
      (List.rdropWhile pySpace (List.dropWhile pySpace l)) =
      List.rdropWhile pySpace (List.dropWhile pySpace l) := by
    apply dropWhile_eq_self_of_head?
    intro a ha
    obtain ⟨t, ht⟩ := List.rdropWhile_prefix pySpace (List.dropWhile pySpace l)
    have hdw : (List.dropWhile pySpace l).head? = some a := by
      rw [← ht]
      cases hr : List.rdropWhile pySpace (List.dropWhile pySpace l) with
      | nil => rw [hr] at ha; simp at ha
      | cons x xs =>
        rw [hr] at ha
        simp only [List.head?_cons, Option.some.injEq] at ha
        subst ha
        simp
    exact dropWhile_head?_not pySpace l a hdw
  rw [A, List.rdropWhile_idempotent]

theorem mem_stripL {a : Char} {l : List Char} (h : a ∈ stripL l) : a ∈ l := by
  unfold stripL at h
  have h1 := (List.rdropWhile_prefix pySpace (List.dropWhile pySpace l)).sublist.subset h
  exact (List.dropWhile_suffix pySpace).sublist.subset h1

theorem collapseNLAux_no_nl : ∀ (b : Bool) (l : List Char), '\n' ∉ collapseNLAux b l := by
  intro b l
  induction l generalizing b with
  | nil => simp [collapseNLAux]
  | cons c rest ih =>
    simp only [collapseNLAux]
    split
    · next hc =>
      split
      · exact ih true
      · intro hmem
        rcases List.mem_cons.1 hmem with h | h
        · exact absurd h.symm (by decide)
        · exact ih true h
    · next hc =>
      intro hmem
      rcases List.mem_cons.1 hmem with h | h
      · rw [h] at hc
        simp at hc
      · exact ih false h

theorem collapseNL_no_nl (l : List Char) : '\n' ∉ collapseNL l :=
  collapseNLAux_no_nl false l

theorem mem_processedLines {t l : List Char} (h : l ∈ processedLines t) :
    stripL l = l ∧ l ≠ [] := by
  unfold processedLines at h
  obtain ⟨hmem, hne⟩ := List.mem_filter.1 h
  obtain ⟨x, -, hx⟩ := List.mem_map.1 hmem
  constructor
  · rw [← hx, stripL_stripL]
  · intro hnil
    rw [hnil] at hne
    simp at hne

theorem orO_none (a : Option String) : orO a none = a := by
  cases a <;> rfl

theorem orO_assoc (a b c : Option String) :
    orO (orO a b) c = orO a (orO b c) := by
  cases a <;> rfl

theorem getDF_empty (f : DField) : getDF {} f = none := by
  cases f <;> rfl

theorem getDF_updateRow (d : DetailData) (lt v : String) (f : DField) :
    getDF (updateRow d lt v) f =
      if firstKeyword lt = some f then some v else getDF d f := by
  cases f <;>
    simp only [updateRow, firstKeyword, keywordOrder, keywordOf, List.find?] <;>
    rcases (inStr "Label" lt).eq_false_or_eq_true with h1 | h1 <;>
    rcases (inStr "Type Length" lt).eq_false_or_eq_true with h2 | h2 <;>
    rcases (inStr "Available In" lt).eq_false_or_eq_true with h3 | h3 <;>
    rcases (inStr "Format" lt).eq_false_or_eq_true with h4 | h4 <;>
    rcases (inStr "Value" lt).eq_false_or_eq_true with h5 | h5 <;>
    rcases (inStr "Links" lt).eq_false_or_eq_true with h6 | h6 <;>
    simp [h1, h2, h3, h4, h5, h6, getDF]

theorem getDF_edvStep (d : DetailData) (cells : List Locator) (f : DField) :
    getDF (edvStep d cells) f = orO (rowContribution f cells) (getDF d f) := by
  match cells with
  | [] => rfl
  | [c0] => rfl
  | c0 :: c1 :: rest =>
    simp only [edvStep, rowContribution]
    cases h : pyTextContent c0 with
    | none => rfl
    | some s =>
      rw [getDF_updateRow]
      split
      · next hk => simp [orO, hk]
      · next hk => simp [orO, hk]

theorem findSome?_append (g : List Locator → Option String)
    (l1 l2 : List (List Locator)) :
    (l1 ++ l2).findSome? g = orO (l1.findSome? g) (l2.findSome? g) := by
  induction l1 with
  | nil => rfl
  | cons a t ih =>
    simp only [List.cons_append, List.findSome?]
    cases g a <;> simp [ih, orO]

theorem getDF_foldl (rows : List (List Locator)) :
    ∀ (d : DetailData) (f : DField),
      getDF (rows.foldl edvStep d) f =
        orO (rows.reverse.findSome? (rowContribution f)) (getDF d f) := by
  induction rows with
  | nil => intro d f; rfl
  | cons r rest ih =>
    intro d f
    simp only [List.foldl_cons, List.reverse_cons]
    rw [ih, findSome?_append, orO_assoc]
    congr 1
    rw [getDF_edvStep]
    congr 1
    simp only [List.findSome?]
    cases rowContribution f r <;> rfl

theorem getDF_extractDetailedView (rows : List (List Locator)) (f : DField) :
    getDF (extractDetailedView rows) f =
      rows.reverse.findSome? (rowContribution f) := by
  unfold extractDetailedView
  rw [getDF_foldl, getDF_empty, orO_none]

theorem runLoop_eq (site : Site) (file : List Rec) (pending : List VariableInfo) :
    runLoop site file pending =
      file ++ pending.map (fun v => Rec.row (rowFor site v)) := by
  induction pending generalizing file with
  | nil => simp [runLoop]
  | cons v rest ih =>
    simp only [runLoop, List.foldl_cons, List.map_cons]
    rw [show List.foldl (runStep site) (runStep site file v) rest
        = runLoop site (runStep site file v) rest from rfl, ih, runStep]
    simp

theorem collectRows_append_none (pre post : List (Option CsvRecord)) :
    collectRows (pre ++ none :: post) = collectRows pre := by
  induction pre with
  | nil => rfl
  | cons r rest ih =>
    cases r with
    | none => rfl
    | some r =>
      simp only [List.cons_append, collectRows]
      exact congrArg (fun s => addRecord s r) ih

theorem collectRows_takeWhile (rows : List (Option CsvRecord)) :
    collectRows rows = collectRows (rows.takeWhile Option.isSome) := by
  induction rows with
  | nil => rfl
  | cons r rest ih =>
    cases r with
    | none => rfl
    | some r => simp only [collectRows, List.takeWhile_cons, Option.isSome_some, ih]

theorem mem_addRecord (s : Finset String) (r : CsvRecord) (x : String) :
    x ∈ addRecord s r ↔
      (∃ w, r.variable_name = some w ∧ w ≠ "" ∧ stripStr w = x) ∨ x ∈ s := by
  cases hr : r.variable_name with
  | none => simp [addRecord, hr]
  | some w =>
    by_cases hw : w = ""
    · subst hw
      simp [addRecord, hr]
    · simp only [addRecord, hr, if_neg, hw, ite_true, if_pos]
      rw [if_pos hw]
      simp only [Finset.mem_insert, Option.some.injEq]
      constructor
      · rintro (h | h)
        · exact Or.inl ⟨w, rfl, hw, h.symm⟩
        · exact Or.inr h
      · rintro (⟨w', hw', -, hx⟩ | h)
        · subst hw'
          exact Or.inl hx.symm
        · exact Or.inr h

theorem mem_collectRows (rows : List (Option CsvRecord)) (x : String) :
    x ∈ collectRows rows ↔
      ∃ r ∈ (rows.takeWhile Option.isSome).filterMap id,
        ∃ w, r.variable_name = some w ∧ w ≠ "" ∧ stripStr w = x := by
  induction rows with
  | nil => simp [collectRows]
  | cons r rest ih =>
    cases r with
    | none => simp [collectRows, List.takeWhile_cons]
    | some r =>
      simp only [collectRows, List.takeWhile_cons, Option.isSome_some,
        List.filterMap_cons, id, mem_addRecord, ih]
      constructor
      · rintro (h | ⟨r', hr', h⟩)
        · exact ⟨r, by simp, h⟩
        · exact ⟨r', by simp [hr'], h⟩
      · rintro ⟨r', hr', h⟩
        rcases List.mem_cons.1 hr' with he | he
        · subst he
          exact Or.inl h
        · exact Or.inr ⟨r', he, h⟩

theorem replaceAll_single (a b : Char) (l : List Char) :
    replaceAll [a] [b] l = l.map (fun c => if c = a then b else c) := by
  unfold replaceAll
  induction l with
  | nil => rfl
  | cons c rest ih =>
    simp only [replaceAllAux, matchesAt, Bool.and_true, List.map_cons]
    by_cases hc : c = a
    · subst hc
      simp [ih]
    · have hne : (a == c) = false := beq_eq_false_iff_ne.2 (fun h => hc h.symm)
      simp [hne, hc, ih]

theorem pendingWorklist_empty_ledger (vars : List VariableInfo) :
    pendingWorklist vars ∅ = vars := by
  simp [pendingWorklist]

theorem recsToCsv_run (site : Site) (l : List VariableInfo) :
    (l.map (fun v => Rec.row (rowFor site v))).filterMap recToCsvRow
      = l.map (fun v => some (⟨some v.name⟩ : CsvRecord)) := by
  induction l with
  | nil => rfl
  | cons v rest ih =>
    show some (⟨some v.name⟩ : CsvRecord)
        :: (rest.map (fun v => Rec.row (rowFor site v))).filterMap recToCsvRow = _
    rw [ih]
    rfl

theorem mem_collect_written (vars : List VariableInfo) (v : VariableInfo)
    (hv : v ∈ vars) (hne : v.name ≠ "") (hstrip : stripStr v.name = v.name) :
    v.name ∈ collectRows (vars.map (fun u => some (⟨some u.name⟩ : CsvRecord))) := by
  induction vars with
  | nil => simp at hv
  | cons u rest ih =>
    simp only [List.map_cons, collectRows, mem_addRecord]
    rcases List.mem_cons.1 hv with he | he
    · subst he
      exact Or.inl ⟨v.name, rfl, hne, hstrip⟩
    · exact Or.inr (ih he)

end Ices

namespace Ices

/-- C4: the text normalizer turns explicit break markers (case-insensitive,
optionally self-closing, with optional whitespace) into line separators,
removes all other markup, collapses each run of newline characters already
present in the non-markup text to a single space (one per run), trims every
resulting line, drops the empty lines, and never returns leading or
trailing whitespace; on `"A<br>B<br/>  C  "` it yields `"A\nB\nC"`. -/
theorem normalizerSpec :
    extractTextWithBrTags ⟨some "A<br>B<br/>  C  ", none⟩ = "A\nB\nC"
    ∧ extractTextWithBrTags ⟨some "a<BR/>b<bR >c", none⟩ = "a\nb\nc"
    ∧ extractTextWithBrTags ⟨some "<div><i>A</i> B</div>", none⟩ = "A B"
    ∧ extractTextWithBrTags ⟨some "A\n\n\nB", none⟩ = "A B"
    ∧ (∀ html tc, stripStr (extractTextWithBrTags ⟨some html, tc⟩)
        = extractTextWithBrTags ⟨some html, tc⟩)
    ∧ (∀ t l, l ∈ processedLines t → stripL l = l ∧ l ≠ [])
    ∧ (∀ l, '\n' ∉ collapseNL l) := by
  refine ⟨by decide, by decide, by decide, by decide, ?_, ?_, collapseNL_no_nl⟩
  · intro html tc
    exact congrArg String.mk (stripL_stripL (intercalateNL (processedLines
      (replaceAll brPlaceholder ['\n']
        (collapseNL (stripTags (replaceBrTags html.data)))))))
  · intro t l h
    exact mem_processedLines h

/-- C5: the text normalizer is total; when structured extraction is
unavailable it falls back to the plain text with newline runs collapsed to
single spaces and trimmed (so `"X\nY"` yields `"X Y"`), and when the
fallback is also unavailable it returns the empty string. -/
theorem normalizerFallbackSpec :
    extractTextWithBrTags ⟨none, some (some "X\nY")⟩ = "X Y"
    ∧ extractTextWithBrTags ⟨none, none⟩ = ""
    ∧ (∀ t, extractTextWithBrTags ⟨none, some t⟩
        = ⟨stripL (collapseNL (t.getD "").data)⟩)
    ∧ (∀ t, '\n' ∉ (extractTextWithBrTags ⟨none, some t⟩).data) := by
  refine ⟨by decide, rfl, fun t => rfl, ?_⟩
  intro t h
  exact collapseNL_no_nl _ (mem_stripL h)

/-- C1 counterexample: two detail rows whose labels both contain the
keyword `Label`; the extraction stores the second row's value, so a later
matching row for an already-set field is not ignored. -/
theorem detailOverwriteCounterexample :
    (extractDetailedView
      [[⟨none, some (some "Label")⟩, ⟨some "A", none⟩],
       [⟨none, some (some "Label")⟩, ⟨some "B", none⟩]]).label = some "B"
    ∧ (extractDetailedView
      [[⟨none, some (some "Label")⟩, ⟨some "A", none⟩],
       [⟨none, some (some "Label")⟩, ⟨some "B", none⟩]]).label ≠ some "A" := by
  constructor <;> decide

/-- C1 (amended): each qualifying detail row is matched by substring
containment against the keywords in the fixed order Label, Type Length,
Available In, Format, Value, Links, the first keyword in that order wins
for a label containing several, and each match stores the value, a later
matching row overwriting an earlier one (last match wins); on the rows
`[("Label","Foo"), ("Type Length","10"), ("Format","YYYY")]` the result is
exactly those three fields. -/
theorem detailExtractionAmended :
    (∀ rows f, getDF (extractDetailedView rows) f
        = rows.reverse.findSome? (rowContribution f))
    ∧ extractDetailedView
        [[⟨none, some (some "Label")⟩, ⟨some "Foo", none⟩],
         [⟨none, some (some "Type Length")⟩, ⟨some "10", none⟩],
         [⟨none, some (some "Format")⟩, ⟨some "YYYY", none⟩]]
      = { label := some "Foo", type_length := some "10", format := some "YYYY" } :=
  ⟨getDF_extractDetailedView, by decide⟩

/-- C2: every variable of the pending worklist produces exactly one output
record, in worklist order, and a variable whose detail extraction yields
nothing still produces a row carrying its summary fields and empty detail
fields. -/
theorem everySelectedVariableWritten :
    (∀ site file pending, runLoop site file pending
        = file ++ pending.map (fun v => Rec.row (rowFor site v)))
    ∧ (∀ site file pending,
        (runLoop site file pending).length = file.length + pending.length)
    ∧ (∀ site v, extractDetailedView (site v.name) = emptyDetail →
        rowFor site v =
          { variable_name := v.name, main_description := v.description,
            main_type := v.type, label := "", type_length := "",
            available_in := "", format := "", value := "", links := "" }) := by
  refine ⟨runLoop_eq, ?_, ?_⟩
  · intro site file pending
    rw [runLoop_eq]
    simp
  · intro site v h
    unfold rowFor
    rw [h]
    rfl

/-- C8: the writer is append-only: a fresh file starts with the header and
continues with the rows, an existing file is extended by rows only (no
second header), and at every step the file written so far is a prefix of
the final file, so earlier content is never modified. -/
theorem writerAppendOnly :
    (∀ site pending, scrapeRun site none pending
        = Rec.header :: pending.map (fun v => Rec.row (rowFor site v)))
    ∧ (∀ site c pending, scrapeRun site (some c) pending
        = c ++ pending.map (fun v => Rec.row (rowFor site v)))
    ∧ (∀ site c pending,
        Rec.header ∉ (scrapeRun site (some c) pending).drop c.length)
    ∧ (∀ site file pending k,
        runLoop site file (pending.take k) <+: runLoop site file pending) := by
  refine ⟨?_, ?_, ?_, ?_⟩
  · intro site pending
    rw [show scrapeRun site none pending = runLoop site [Rec.header] pending from rfl,
      runLoop_eq]
    rfl
  · intro site c pending
    exact runLoop_eq site c pending
  · intro site c pending h
    rw [show scrapeRun site (some c) pending = runLoop site c pending from rfl,
      runLoop_eq, List.drop_left] at h
    obtain ⟨v, -, hv⟩ := List.mem_map.1 h
    exact Rec.noConfusion hv
  · intro site file pending k
    rw [runLoop_eq, runLoop_eq]
    refine ⟨(pending.map (fun v => Rec.row (rowFor site v))).drop k, ?_⟩
    rw [List.append_assoc]
    congr 1
    rw [List.map_take]
    exact List.take_append_drop k _

/-- C3 counterexample: an existing file with one good record and then a
corrupt one: the ledger read keeps the name read before the failure, so a
failure partway through the file does not yield the empty set. -/
theorem ledgerPartialCounterexample :
    readExistingVariables (some ⟨false, [some ⟨some "A"⟩, none]⟩)
      ≠ (∅ : Finset String)
    ∧ "A" ∈ readExistingVariables (some ⟨false, [some ⟨some "A"⟩, none]⟩) := by
  constructor <;> decide

/-- C3 (amended): the ledger read never raises; an absent file or a file
whose open fails yields the empty set, and a failure partway through the
file yields exactly the names accumulated from the records before the
failure (the rows at and after the failing row contribute nothing). -/
theorem ledgerReadAmended :
    readExistingVariables none = ∅
    ∧ (∀ rows, readExistingVariables (some ⟨true, rows⟩) = ∅)
    ∧ (∀ rows, readExistingVariables (some ⟨false, rows⟩)
        = collectRows (rows.takeWhile Option.isSome))
    ∧ (∀ pre post, collectRows (pre ++ none :: post) = collectRows pre) := by
  refine ⟨rfl, fun rows => rfl, ?_, collectRows_append_none⟩
  intro rows
  exact collectRows_takeWhile rows

/-- C9: a name enters the ledger exactly when some record before the first
failure carries a present, non-empty `variable_name`, and what is stored
(and hence compared on membership) is the whitespace-trimmed name; a record
with a missing or empty `variable_name` contributes nothing. -/
theorem ledgerMembershipSpec :
    (∀ rows x, x ∈ collectRows rows ↔
      ∃ r ∈ (rows.takeWhile Option.isSome).filterMap id,
        ∃ w, r.variable_name = some w ∧ w ≠ "" ∧ stripStr w = x)
    ∧ (∀ s, addRecord s ⟨some ""⟩ = s)
    ∧ (∀ s, addRecord s ⟨none⟩ = s) := by
  refine ⟨mem_collectRows, ?_, fun s => rfl⟩
  intro s
  simp [addRecord]

/-- C6: a listing row is collected iff its row-level operations do not
raise, it has at least one link in a `td` cell and it has no `th` cell —
in both directions, and the collected entry is determined by the row (a
row passing the guard with no link in its first cell is still collected,
its name extracting to the empty string); a missing second or third cell
yields an empty description or type rather than an error; a row that
raises is skipped without aborting the others, so a bad row among valid
ones removes only itself; and the output preserves row order (the
collection distributes over concatenation). -/
theorem indexerRowFiltering :
    (∀ r v, collectStep r = some v ↔
        (r.fails = false ∧ 0 < tdLinkCount r ∧ r.thCount = 0
          ∧ v = { name := rowName r, description := rowDescription r,
                  type := rowType r }))
    ∧ (∀ r, (r.fails = true ∨ tdLinkCount r = 0 ∨ r.thCount ≠ 0) →
        collectStep r = none)
    ∧ (∀ r v, collectStep r = some v → r.tds.length < 2 → v.description = "")
    ∧ (∀ r v, collectStep r = some v → r.tds.length < 3 → v.type = "")
    ∧ (∀ rows1 rows2, collectAllVariables (rows1 ++ rows2)
        = collectAllVariables rows1 ++ collectAllVariables rows2)
    ∧ (∀ pre post b, b.fails = true →
        collectAllVariables (pre ++ b :: post) = collectAllVariables (pre ++ post)) := by
  have hchar : ∀ r v, collectStep r = some v ↔
      (r.fails = false ∧ 0 < tdLinkCount r ∧ r.thCount = 0
        ∧ v = { name := rowName r, description := rowDescription r,
                type := rowType r }) := by
    intro r v
    unfold collectStep
    split
    · next hf =>
      constructor
      · intro h
        exact Option.noConfusion h
      · rintro ⟨hf2, -⟩
        rw [hf] at hf2
        exact Bool.noConfusion hf2
    · next hf =>
      split
      · next hcond =>
        rw [Bool.and_eq_true, decide_eq_true_eq, beq_iff_eq] at hcond
        constructor
        · intro h
          obtain rfl := Option.some.inj h
          exact ⟨by simpa using hf, hcond.1, hcond.2, rfl⟩
        · rintro ⟨-, -, -, rfl⟩
          rfl
      · next hcond =>
        constructor
        · intro h
          exact Option.noConfusion h
        · rintro ⟨-, h1, h2, -⟩
          exfalso
          apply hcond
          rw [Bool.and_eq_true, decide_eq_true_eq, beq_iff_eq]
          exact ⟨h1, h2⟩
  have hshape : ∀ r v, collectStep r = some v →
      (r.fails = false ∧ 0 < tdLinkCount r ∧ r.thCount = 0)
      ∧ v.description = rowDescription r ∧ v.type = rowType r := by
    intro r v h
    obtain ⟨h1, h2, h3, rfl⟩ := (hchar r v).1 h
    exact ⟨⟨h1, h2, h3⟩, rfl, rfl⟩
  have hdesc : ∀ r : LRow, r.tds.length < 2 → rowDescription r = "" := by
    intro r hlen
    unfold rowDescription
    split
    · next c1 rest heq =>
      rw [heq] at hlen
      simp at hlen
      omega
    · rfl
  have htype : ∀ r : LRow, r.tds.length < 3 → rowType r = "" := by
    intro r hlen
    unfold rowType
    split
    · next c2 rest heq =>
      rw [heq] at hlen
      simp at hlen
      omega
    · rfl
  refine ⟨hchar, ?_, ?_, ?_, ?_, ?_⟩
  · intro r hdisj
    unfold collectStep
    split
    · rfl
    · next hf =>
      split
      · next hcond =>
        exfalso
        rw [Bool.and_eq_true, decide_eq_true_eq, beq_iff_eq] at hcond
        rcases hdisj with h | h | h
        · exact hf h
        · omega
        · exact h hcond.2
      · rfl
  · intro r v h hlen
    obtain ⟨-, hd, -⟩ := hshape r v h
    rw [hd]
    exact hdesc r hlen
  · intro r v h hlen
    obtain ⟨-, -, ht⟩ := hshape r v h
    rw [ht]
    exact htype r hlen
  · intro rows1 rows2
    exact List.filterMap_append rows1 rows2 collectStep
  · intro pre post b hb
    have hnone : collectStep b = none := by
      unfold collectStep
      rw [if_pos hb]
    unfold collectAllVariables
    rw [List.filterMap_append, List.filterMap_append,
      List.filterMap_cons_none hnone]

/-- C7 counterexample: a listing whose one variable has the empty name.
The completed first run writes its row, but an empty name never enters the
ledger, so the second run against the same source and the same output file
appends the row again. -/
theorem resumeIdempotentCounterexample :
    fullRun (fun _ => []) [⟨"", "", ""⟩]
        (some (fullRun (fun _ => []) [⟨"", "", ""⟩] none))
      ≠ fullRun (fun _ => []) [⟨"", "", ""⟩] none := by
  decide

/-- C7 (amended): provided every listed variable has a non-empty name
(names are already whitespace-trimmed by construction, which the statement
assumes alongside), a second full crawl against the same unchanged source
and the persisted output of a completed fresh run has an empty pending
worklist and appends zero new rows. -/
theorem resumeIdempotentAmended :
    (∀ (site : Site) (vars : List VariableInfo),
      (∀ v ∈ vars, v.name ≠ "" ∧ stripStr v.name = v.name) →
      pendingWorklist vars
        (readExistingVariables (some (recsToCsv (fullRun site vars none)))) = [])
    ∧ (∀ (site : Site) (vars : List VariableInfo),
      (∀ v ∈ vars, v.name ≠ "" ∧ stripStr v.name = v.name) →
      fullRun site vars (some (fullRun site vars none)) = fullRun site vars none) := by
  have hfirst : ∀ (site : Site) (vars : List VariableInfo),
      fullRun site vars none
        = Rec.header :: vars.map (fun v => Rec.row (rowFor site v)) := by
    intro site vars
    show scrapeRun site none (pendingWorklist vars ∅) = _
    rw [pendingWorklist_empty_ledger]
    exact runLoop_eq site [Rec.header] vars
  have hledger : ∀ (site : Site) (vars : List VariableInfo),
      readExistingVariables (some (recsToCsv (fullRun site vars none)))
        = collectRows (vars.map (fun v => some (⟨some v.name⟩ : CsvRecord))) := by
    intro site vars
    rw [hfirst]
    show collectRows
        ((Rec.header :: vars.map (fun v => Rec.row (rowFor site v))).filterMap
          recToCsvRow) = _
    rw [show (Rec.header :: vars.map (fun v => Rec.row (rowFor site v))).filterMap
          recToCsvRow
        = (vars.map (fun v => Rec.row (rowFor site v))).filterMap recToCsvRow from rfl,
      recsToCsv_run]
  have hpend : ∀ (site : Site) (vars : List VariableInfo),
      (∀ v ∈ vars, v.name ≠ "" ∧ stripStr v.name = v.name) →
      pendingWorklist vars
        (readExistingVariables (some (recsToCsv (fullRun site vars none)))) = [] := by
    intro site vars h
    rw [hledger]
    unfold pendingWorklist
    rw [List.filter_eq_nil_iff]
    intro v hv
    obtain ⟨hne, hstrip⟩ := h v hv
    have hmem := mem_collect_written vars v hv hne hstrip
    simp [hmem]
  refine ⟨hpend, ?_⟩
  intro site vars h
  show scrapeRun site (some (fullRun site vars none))
      (pendingWorklist vars
        (readExistingVariables (some (recsToCsv (fullRun site vars none)))))
    = fullRun site vars none
  rw [hpend site vars h]
  rfl

/-- C10: the default output filename is the library name, a double
underscore, the dataset name with every space and colon replaced by a
hyphen, a double underscore, the date string and the `.csv` extension. -/
theorem defaultFilenameSpec :
    (∀ library dataset dateStr,
      defaultOutputCsv library dataset dateStr
        = library ++ "__" ++ ⟨dataset.data.map hyphenate⟩ ++ "__" ++ dateStr ++ ".csv")
    ∧ defaultOutputCsv "DAD" "a. DADyyyy: Discharge Abstract Database -DAD" "2025-01-15"
      = "DAD__a.-DADyyyy--Discharge-Abstract-Database--DAD__2025-01-15.csv" := by
  constructor
  · intro library dataset dateStr
    unfold defaultOutputCsv safeDatasetName
    rw [replaceAll_single, replaceAll_single, List.map_map]
    have : ((fun c => if c = ':' then '-' else c) ∘ fun c => if c = ' ' then '-' else c)
        = hyphenate := by
      funext c
      by_cases h1 : c = ' '
      · subst h1
        simp [hyphenate]
      · by_cases h2 : c = ':'
        · subst h2
          simp [hyphenate]
        · simp [hyphenate, h1, h2, Function.comp]
    rw [this]
  · decide

end Ices
